import Mathlib

/-!
# lannet: the control surface and the peer registry

A shallow embedding of `webserver.go` (`loopbackOnly`, `apiHandler`) and of
`peers.go` (the `Notify` handler and the timeout loop of `startPeerServices`,
`updatePeerName`), with the pieces of the Go standard library these functions
call (`io.CopyN`, `io.ReadAll`, `strings.TrimPrefix`, `filepath.IsAbs`,
`net.IP.IsLoopback`, `utf8.DecodeRuneInString`, `strings.ToValidUTF8`).

Go strings are byte sequences, so they are lists of bytes here.  Global
variables (`name`, `fsRoot`, `httpFs`, `peers`) are passed explicitly, and
`time.Now()` is an explicit argument.  One call of a handler is one step;
the interleaving of goroutines is not part of the model.
-/

namespace Lannet

/-! ## Go strings -/

/-- A Go `string` or `[]byte`: a sequence of bytes. -/
abbrev GoString := List (Fin 256)

/-- An ASCII string literal of the source as bytes. -/
def str (s : String) : GoString := s.toList.map (fun c => Fin.ofNat c.toNat)

/-- Go `strings.HasPrefix`. -/
def HasPrefix (s pfx : GoString) : Bool := s.take pfx.length == pfx

/-- Go `strings.TrimPrefix`: `s` without the leading `pfx`, or `s` itself. -/
def TrimPrefix (s pfx : GoString) : GoString :=
  if HasPrefix s pfx then s.drop pfx.length else s

/-- Go `filepath.IsAbs` on Unix: the path begins with a slash. -/
def IsAbs (path : GoString) : Bool := HasPrefix path (str "/")

/-! ## Request bodies and `io` -/

/-- Go `error` values as the handlers tell them apart. -/
inductive error where
  | nil
  | EOF
  | other (msg : GoString)
deriving DecidableEq, Repr

/-- A request or response body as a reader: it delivers `data` and then ends
with `io.EOF` (`fail = none`) or with a transport error. -/
structure Body where
  data : GoString
  fail : Option GoString
deriving DecidableEq, Repr

/-- Go `io.CopyN(dst, src, n)` into an empty builder: what was written, and
the error.  `written == n` gives `nil`; fewer bytes give the error of the
reader, which is `io.EOF` when the reader simply ended. -/
def CopyN (src : Body) (n : Nat) : GoString × error :=
  let dst := src.data.take n
  if dst.length = n then (dst, error.nil)
  else match src.fail with
    | none => (dst, error.EOF)
    | some e => (dst, error.other e)

/-- Go `io.ReadAll`: everything up to `io.EOF` (reported as `nil`) or up to
an error. -/
def ReadAll (src : Body) : GoString × error :=
  match src.fail with
  | none => (src.data, error.nil)
  | some e => (src.data, error.other e)

/-- Go `errors.Is(err, io.EOF)`. -/
def isEOF : error → Bool
  | error.EOF => true
  | _ => false

/-- Go `err.Error()` for a non-nil error. -/
def error.Error : error → GoString
  | error.nil => []
  | error.EOF => str "EOF"
  | error.other m => m

/-! ## `net.IP` -/

/-- Go `net.IP`: a byte slice of length 4 or 16; `nil` is the empty list. -/
abbrev IP := List (Fin 256)

/-- Go `IP.To4`: the 4-byte form of an IPv4 address, also of an IPv4-mapped
IPv6 address; `nil` otherwise. -/
def IP.To4 (ip : IP) : IP :=
  if ip.length = 4 then ip
  else if ip.length = 16 ∧ (ip.take 10).all (fun b => b == 0)
      ∧ ip.get? 10 = some 255 ∧ ip.get? 11 = some 255 then ip.drop 12
  else []

/-- Go `net.IPv6loopback`, the address `::1`. -/
def IPv6loopback : IP := List.replicate 15 0 ++ [1]

/-- Go `IP.IsLoopback`: `127.x.x.x`, or `::1`.  `IPv6loopback` has 16 bytes,
so `ip.Equal(IPv6loopback)` is byte equality for a 16-byte `ip`; a 4-byte
`ip` never reaches it and a `nil` one differs in length. -/
def IP.IsLoopback (ip : IP) : Bool :=
  let ip4 := IP.To4 ip
  if ip4 ≠ [] then ip4.head? == some 127
  else ip == IPv6loopback

/-! ## The HTTP request and response -/

/-- An `http.Request` as `apiHandler` reads it.  `RemoteIP` is
`net.ParseIP(host)` for the host part of `r.RemoteAddr` as
`net.SplitHostPort` returns it: `nil` when the address cannot be parsed. -/
structure Request where
  Method : GoString
  Path : GoString
  RemoteIP : IP
  Body : Body
deriving DecidableEq, Repr

/-- An `http.ResponseWriter`: the status line once it is written, and the
bytes of the body. -/
structure ResponseWriter where
  status : Option Nat
  body : GoString
deriving DecidableEq, Repr

def StatusOK : Nat := 200
def StatusBadRequest : Nat := 400
def StatusForbidden : Nat := 403
def StatusNotFound : Nat := 404
def StatusMethodNotAllowed : Nat := 405
def StatusInternalServerError : Nat := 500

/-- The writer a handler starts with. -/
def ResponseWriter.new : ResponseWriter := ⟨none, []⟩

/-- Go `w.WriteHeader(code)`: the first call fixes the status. -/
def ResponseWriter.WriteHeader (w : ResponseWriter) (code : Nat) : ResponseWriter :=
  match w.status with
  | none => { w with status := some code }
  | some _ => w

/-- Go `w.Write(b)`: writes the status 200 first when none was written. -/
def ResponseWriter.Write (w : ResponseWriter) (b : GoString) : ResponseWriter :=
  let w1 := w.WriteHeader StatusOK
  { w1 with body := w1.body ++ b }

/-- Go `fmt.Fprint(w, s)`. -/
def Fprint (w : ResponseWriter) (s : GoString) : ResponseWriter := w.Write s

/-- Go `fmt.Fprintln(w, s)`. -/
def Fprintln (w : ResponseWriter) (s : GoString) : ResponseWriter := w.Write (s ++ str "\n")

/-- The status the client receives: the one written, or 200 when the handler
returned without writing any. -/
def ResponseWriter.StatusCode (w : ResponseWriter) : Nat := w.status.getD StatusOK

/-! ## UTF-8 (Go `unicode/utf8`, `strings.ToValidUTF8`) -/

def RuneError : Nat := 0xFFFD
def RuneSelf : Nat := 0x80
def locb : Nat := 0x80
def hicb : Nat := 0xBF
def mask2 : Nat := 0x1F
def mask3 : Nat := 0x0F
def mask4 : Nat := 0x07
def maskx : Nat := 0x3F

/-- Entry `xx` of Go's `first` table: invalid, size 1. -/
def xx : Nat := 0xF1
/-- Entry `as` of Go's `first` table: ASCII, size 1. -/
def as : Nat := 0xF0
def s1 : Nat := 0x02
def s2 : Nat := 0x13
def s3 : Nat := 0x03
def s4 : Nat := 0x23
def s5 : Nat := 0x34
def s6 : Nat := 0x04
def s7 : Nat := 0x44

/-- Go `utf8.first`: information about the first byte of an encoding, the
256-entry table written by its ranges. -/
def first (b : Fin 256) : Nat :=
  if b.val < 0x80 then as
  else if b.val < 0xC2 then xx
  else if b.val < 0xE0 then s1
  else if b.val = 0xE0 then s2
  else if b.val < 0xED then s3
  else if b.val = 0xED then s4
  else if b.val < 0xF0 then s3
  else if b.val = 0xF0 then s5
  else if b.val < 0xF4 then s6
  else if b.val = 0xF4 then s7
  else xx

/-- Go `utf8.acceptRange`: the range the second byte must lie in. -/
structure acceptRange where
  lo : Nat
  hi : Nat

/-- Go `utf8.acceptRanges`. -/
def acceptRanges (i : Nat) : acceptRange :=
  match i with
  | 0 => ⟨locb, hicb⟩
  | 1 => ⟨0xA0, hicb⟩
  | 2 => ⟨locb, 0x9F⟩
  | 3 => ⟨0x90, hicb⟩
  | 4 => ⟨locb, 0x8F⟩
  | _ => ⟨0, 0⟩

/-- Go `utf8.DecodeRuneInString`: the rune at the head of `s` and its width
in bytes; `(RuneError, 0)` for the empty string and `(RuneError, 1)` for an
invalid encoding.  In the size-1 branch Go selects between the byte and
`RuneError` with a mask made from the low bit of the table entry. -/
def DecodeRuneInString (s : GoString) : Nat × Nat :=
  match s with
  | [] => (RuneError, 0)
  | b0 :: t0 =>
    let x := first b0
    if x ≥ as then
      (if x % 2 = 1 then RuneError else b0.val, 1)
    else
      let sz := x &&& 7
      let accept := acceptRanges (x >>> 4)
      if s.length < sz then (RuneError, 1)
      else match t0 with
        | [] => (RuneError, 1)
        | b1 :: t1 =>
          if b1.val < accept.lo ∨ accept.hi < b1.val then (RuneError, 1)
          else if sz ≤ 2 then
            (((b0.val &&& mask2) <<< 6) ||| (b1.val &&& maskx), 2)
          else match t1 with
            | [] => (RuneError, 1)
            | b2 :: t2 =>
              if b2.val < locb ∨ hicb < b2.val then (RuneError, 1)
              else if sz ≤ 3 then
                (((b0.val &&& mask3) <<< 12) ||| ((b1.val &&& maskx) <<< 6)
                  ||| (b2.val &&& maskx), 3)
              else match t2 with
                | [] => (RuneError, 1)
                | b3 :: _ =>
                  if b3.val < locb ∨ hicb < b3.val then (RuneError, 1)
                  else
                    (((b0.val &&& mask4) <<< 18) ||| ((b1.val &&& maskx) <<< 12)
                      ||| ((b2.val &&& maskx) <<< 6) ||| (b3.val &&& maskx), 4)

/-- The first loop of `strings.ToValidUTF8`, `for i, c := range s`, entered
at offset `i` with `s` the rest of the string: the offset of the first rune
that is `RuneError` with width 1, if there is one.  `fuel` bounds the number
of iterations. -/
def firstInvalid : Nat → GoString → Nat → Option Nat
  | 0, _, _ => none
  | fuel + 1, s, i =>
    match s with
    | [] => none
    | _ :: _ =>
      let c := (DecodeRuneInString s).1
      let wid := (DecodeRuneInString s).2
      if c ≠ RuneError then firstInvalid fuel (s.drop wid) (i + wid)
      else if wid = 1 then some i
      else firstInvalid fuel (s.drop wid) (i + wid)

/-- The second loop of `strings.ToValidUTF8`, `for i := 0; i < len(s);`, with
`s` the part of the string from `i` on and `invalid` the flag "the previous
byte was from an invalid UTF-8 sequence": what the loop appends to the
builder.  `fuel` bounds the number of iterations. -/
def replaceLoop : Nat → GoString → Bool → GoString → GoString
  | 0, _, _, _ => []
  | fuel + 1, s, invalid, replacement =>
    match s with
    | [] => []
    | c :: rest =>
      if c.val < RuneSelf then c :: replaceLoop fuel rest false replacement
      else
        let wid := (DecodeRuneInString s).2
        if wid = 1 then
          if !invalid then replacement ++ replaceLoop fuel rest true replacement
          else replaceLoop fuel rest true replacement
        else s.take wid ++ replaceLoop fuel (s.drop wid) false replacement

/-- Go `strings.ToValidUTF8(s, replacement)`.  Without an invalid byte `s` is
returned as it is; otherwise the part before the first invalid byte is
copied and the second loop runs on the rest.  Each loop consumes at least
one byte per iteration, so `len(s)` iterations are enough. -/
def ToValidUTF8 (s replacement : GoString) : GoString :=
  match firstInvalid s.length s 0 with
  | none => s
  | some i => s.take i ++ replaceLoop (s.length - i) (s.drop i) false replacement

/-- The replacement both callers pass, `"�"`: the bytes EF BF BD. -/
def replacementChar : GoString := [0xEF, 0xBF, 0xBD]

/-! ## The control surface (`webserver.go`) -/

/-- The handler `http.FileServer(dotFileHidingFileSystem{http.Dir(root)})`;
the directory is all that tells two of them apart. -/
structure FileServer where
  root : GoString
deriving DecidableEq, Repr

/-- The globals `apiHandler` reads and writes: `name` (lannet.go), `fsRoot`
and `httpFs` (webserver.go). -/
structure State where
  name : GoString
  fsRoot : GoString
  httpFs : FileServer
deriving DecidableEq, Repr

/-- What one call of `apiHandler` leaves behind: the response, the globals,
and whether `r.Body` was read from. -/
structure Result where
  w : ResponseWriter
  st : State
  bodyRead : Bool
deriving DecidableEq, Repr

/-- Go `loopbackOnly`: writes a 403 response and returns true when the request
is not from the local machine. -/
def loopbackOnly (w : ResponseWriter) (r : Request) : ResponseWriter × Bool :=
  if !IP.IsLoopback r.RemoteIP then
    (Fprintln (w.WriteHeader StatusForbidden) (str "403 Forbidden"), true)
  else (w, false)

/-- Go `apiHandler`. -/
def apiHandler (st : State) (w : ResponseWriter) (r : Request) : Result :=
  let path := TrimPrefix r.Path (str "/.api/")
  if path = str "setRoot" then
    match loopbackOnly w r with
    | (w, true) => ⟨w, st, false⟩
    | (w, false) =>
      if r.Method ≠ str "POST" then
        ⟨Fprintln (w.WriteHeader StatusMethodNotAllowed)
          (str "403 Method Not Allowed\nUse POST"), st, false⟩
      else
        match ReadAll r.Body with
        | (newRoot, err) =>
          if err ≠ error.nil then
            ⟨Fprintln (w.WriteHeader StatusInternalServerError)
              (str "500 Internal Server Error\nCouldn't read request body: " ++ err.Error),
              st, true⟩
          else if !IsAbs newRoot then
            ⟨Fprintln (w.WriteHeader StatusBadRequest)
              (str "400 Bad Request\nProvided root path is not an absolute path"), st, true⟩
          else
            ⟨w.WriteHeader StatusOK, { st with httpFs := ⟨newRoot⟩, fsRoot := newRoot }, true⟩
  else if path = str "getName" then
    let w1 :=
      if st.name = [] then Fprintln (w.WriteHeader StatusNotFound) (str "404 Not Found")
      else w
    ⟨Fprint w1 st.name, st, false⟩
  else if path = str "setName" then
    match loopbackOnly w r with
    | (w, true) => ⟨w, st, false⟩
    | (w, false) =>
      if r.Method ≠ str "POST" then
        ⟨Fprintln (w.WriteHeader StatusMethodNotAllowed)
          (str "403 Method Not Allowed\nUse POST"), st, false⟩
      else
        match CopyN r.Body 65 with
        | (newName, err) =>
          if !isEOF err then
            if err = error.nil then
              ⟨Fprintln (w.WriteHeader StatusBadRequest)
                (str "Name was longer than 64 bytes, rejected"), st, true⟩
            else
              ⟨Fprintln (w.WriteHeader StatusInternalServerError)
                (str "500 Internal Server Error\nCouldn't read request body: " ++ err.Error),
                st, true⟩
          else
            ⟨w.WriteHeader StatusOK,
              { st with name := ToValidUTF8 newName replacementChar }, true⟩
  else
    ⟨Fprintln (w.WriteHeader StatusNotFound) (str "404 Not Found"), st, false⟩

/-- One request served by `apiHandler` on a fresh response writer. -/
def serve (st : State) (r : Request) : Result := apiHandler st ResponseWriter.new r

/-! ## The peer registry (`peers.go`) -/

/-- A `time.Time` or `time.Duration` as a count of nanoseconds on one clock. -/
abbrev Time := Int

/-- Go `time.Second`. -/
def Second : Int := 1000000000

/-- The constant `pingInterval` of lannet.go. -/
def pingInterval : Int := Second

/-- Go `t.Add(d)`. -/
def Time.Add (t : Time) (d : Int) : Time := t + d

/-- Go `t.Before(u)`. -/
def Time.Before (t u : Time) : Bool := decide (t < u)

/-- The struct `peer`. -/
structure peer where
  ip : GoString
  Name : GoString
  lastSeen : Time
deriving DecidableEq, Repr

/-- The zero `time.Time`, the value of a field that was not set. -/
def zeroTime : Time := 0

/-- A `peerdiscovery.Discovered`: the sender's address and the payload. -/
structure Discovered where
  Address : GoString
  Payload : GoString
deriving DecidableEq, Repr

/-- The map `peers`, from `IP:port` to the record: a list of bindings in
which the first binding of a key is the one the map holds. -/
abbrev PeerMap := List (GoString × peer)

/-- Go `peers[key]` with the `ok` result. -/
def PeerMap.get (m : PeerMap) (key : GoString) : Option peer :=
  match m with
  | [] => none
  | (k, p) :: rest => if k = key then some p else PeerMap.get rest key

/-- Go `delete(peers, key)`. -/
def PeerMap.delete (m : PeerMap) (key : GoString) : PeerMap :=
  m.filter (fun e => decide (e.1 ≠ key))

/-- Go `peers[key] = p`. -/
def PeerMap.set (m : PeerMap) (key : GoString) (p : peer) : PeerMap :=
  (key, p) :: PeerMap.delete m key

/-- The keys a `range peers` visits: each key of the map once. -/
def PeerMap.keys (m : PeerMap) : List GoString := (m.map Prod.fst).dedup

/-- The `Notify` callback of `startPeerServices`, run at time `now`: the map
afterwards, and the key for which `updatePeerName` was started, if any. -/
def Notify (now : Time) (d : Discovered) (peers : PeerMap) : PeerMap × Option GoString :=
  let key := d.Address ++ str ":" ++ d.Payload
  let added : PeerMap × Option GoString :=
    match peers.get key with
    | none => (peers.set key { ip := d.Address, Name := d.Address, lastSeen := zeroTime }, some key)
    | some _ => (peers, none)
  match added.1.get key with
  | some p => (added.1.set key { p with lastSeen := now }, added.2)
  | none => added

/-- One pass of the timeout loop of `startPeerServices`: the `range` over the
map with its `delete`.  `time.Now()` is read anew for every entry; `clock addr`
is the reading at the entry of `addr`. -/
def timeoutSweep (clock : GoString → Time) (peers : PeerMap) : PeerMap :=
  peers.keys.foldl
    (fun m addr =>
      match peers.get addr with
      | some p =>
        if Time.Before (Time.Add p.lastSeen (5 * pingInterval)) (clock addr) then m.delete addr
        else m
      | none => m)
    peers

/-- What `http.Get` gives `updatePeerName`: an error, or a response with its
status code and body. -/
inductive GetResponse where
  | err
  | resp (StatusCode : Nat) (Body : Body)
deriving DecidableEq, Repr

/-- Go `updatePeerName`, on the record `p` points to. -/
def updatePeerName (res : GetResponse) (p : peer) : peer :=
  match res with
  | GetResponse.err => p
  | GetResponse.resp StatusCode Body =>
    if StatusCode ≠ StatusOK then { p with Name := p.ip }
    else
      match CopyN Body 65 with
      | (newName, err) =>
        if !isEOF err then p
        else { p with Name := ToValidUTF8 newName replacementChar }

/-- The `Notify` callback run for the announcements of one sender, one run
after the other; `times` are the readings of `time.Now()` in the successive
runs, in the order of processing. -/
def notifyAll (d : Discovered) (times : List Time) (peers : PeerMap) : PeerMap :=
  times.foldl (fun m t => (Notify t d m).1) peers

/-- The readings of `time.Now()` in the order in which they are taken.  Each
one is taken inside the `peersMu` critical section of a run of `Notify`, so
they follow one another on one clock and never decrease. -/
abbrev clockReadings (times : List Time) : Prop :=
  List.Pairwise (fun a b => a ≤ b) times

/-! ## The sanitization in the words of the specification -/

/-- A piece of a byte string read from the left: a valid UTF-8 sequence, or a
byte that is not part of one. -/
inductive Piece where
  | valid (bytes : GoString)
  | invalid (b : Fin 256)
deriving DecidableEq, Repr

/-- The pieces of `s` from left to right.  `fuel` bounds their number. -/
def piecesAux : Nat → GoString → List Piece
  | 0, _ => []
  | fuel + 1, s =>
    match s with
    | [] => []
    | b :: rest =>
      if (DecodeRuneInString s).1 = RuneError ∧ (DecodeRuneInString s).2 = 1 then
        Piece.invalid b :: piecesAux fuel rest
      else
        Piece.valid (s.take (DecodeRuneInString s).2)
          :: piecesAux fuel (s.drop (DecodeRuneInString s).2)

/-- The pieces of `s`; a string has at most as many pieces as bytes. -/
def pieces (s : GoString) : List Piece := piecesAux s.length s

/-- The bytes a piece stands for in the input. -/
def Piece.bytes : Piece → GoString
  | Piece.valid v => v
  | Piece.invalid b => [b]

def Piece.isInvalid : Piece → Bool
  | Piece.valid _ => false
  | Piece.invalid _ => true

/-- A piece written out: a valid sequence as it is, an invalid byte as the
replacement. -/
def Piece.render (replacement : GoString) : Piece → GoString
  | Piece.valid v => v
  | Piece.invalid _ => replacement

/-- The number of bytes of `s` that are not part of a valid sequence. -/
def invalidBytes (s : GoString) : Nat := (pieces s).countP Piece.isInvalid

/-- Replacement byte for byte: every invalid byte becomes one replacement. -/
def replaceEachInvalid (s replacement : GoString) : GoString :=
  ((pieces s).map (Piece.render replacement)).flatten

/-- Of each run of adjacent invalid bytes only the first is kept; `prev`
says that the piece before was an invalid byte. -/
def firstOfRuns : Bool → List Piece → List Piece
  | _, [] => []
  | _, Piece.valid v :: rest => Piece.valid v :: firstOfRuns false rest
  | prev, Piece.invalid b :: rest =>
    if prev then firstOfRuns true rest else Piece.invalid b :: firstOfRuns true rest

/-- The number of maximal runs of adjacent invalid bytes in `s`. -/
def invalidRuns (s : GoString) : Nat := (firstOfRuns false (pieces s)).countP Piece.isInvalid

/-- Replacement run by run: every maximal run of adjacent invalid bytes
becomes one replacement. -/
def replaceInvalidRuns (s replacement : GoString) : GoString :=
  ((firstOfRuns false (pieces s)).map (Piece.render replacement)).flatten

/-- How many times `pat` occurs in `s` (occurrences do not overlap for the
three-byte replacement character). -/
def countOccurrences (pat : GoString) : GoString → Nat
  | [] => 0
  | b :: rest =>
    (if HasPrefix (b :: rest) pat then 1 else 0) + countOccurrences pat rest

/-! ## Sample data -/

/-- A daemon state: a name and a served root. -/
def sampleState : State := ⟨str "bob@host", str "/home/bob/lannet", ⟨str "/home/bob/lannet"⟩⟩

/-- The same state with the name unset. -/
def unnamedState : State := { sampleState with name := [] }

/-- The loopback address 127.0.0.1. -/
def localhost : IP := [127, 0, 0, 1]

/-- A LAN address, 192.168.1.20. -/
def lanHost : IP := [192, 168, 1, 20]

/-- A name of exactly 64 bytes. -/
def name64 : GoString := List.replicate 64 97

/-- A name of exactly 65 bytes. -/
def name65 : GoString := List.replicate 65 97

/-- A request to the API endpoint `endpoint`. -/
def apiRequest (method endpoint : String) (ip : IP) (body : GoString) : Request :=
  ⟨str method, str "/.api/" ++ str endpoint, ip, ⟨body, none⟩⟩

/-- A peer announcing the webserver port 8080 from 10.0.0.2. -/
def sampleSender : Discovered := ⟨str "10.0.0.2", str "8080"⟩

/-- The key of `sampleSender`. -/
def sampleKey : GoString := str "10.0.0.2:8080"

/-- A record of `sampleSender` with a resolved name, last seen at time 0. -/
def samplePeer : peer := ⟨str "10.0.0.2", str "carol", 0⟩

/-! ## Facts about the UTF-8 decoder and the sanitization -/

theorem decode_width_pos (c : Fin 256) (rest : GoString) :
    1 ≤ (DecodeRuneInString (c :: rest)).2 := by
  unfold DecodeRuneInString
  dsimp only
  repeat' split
  all_goals simp

theorem decode_ascii (c : Fin 256) (rest : GoString) (h : c.val < RuneSelf) :
    DecodeRuneInString (c :: rest) = (c.val, 1) := by
  have hx : first c = as := by
    unfold first; simp only [RuneSelf] at h; simp [h]
  unfold DecodeRuneInString
  simp [hx, as]

theorem decode_non_ascii_width_one (c : Fin 256) (rest : GoString) (h : ¬ c.val < RuneSelf)
    (hw : (DecodeRuneInString (c :: rest)).2 = 1) :
    (DecodeRuneInString (c :: rest)).1 = RuneError := by
  have hx : first c = xx ∨ first c < as := by
    unfold first; simp only [RuneSelf] at h
    simp only [h, if_false]
    repeat' split
    all_goals simp [xx, as, s1, s2, s3, s4, s5, s6, s7]
  revert hw
  unfold DecodeRuneInString
  dsimp only
  rcases hx with hx | hx
  · simp [hx, xx, as]
  · rw [if_neg (by omega)]
    repeat' split
    all_goals simp

/-- One step of the second loop at an invalid byte. -/
theorem replaceLoop_invalid (fuel : Nat) (c : Fin 256) (rest : GoString) (inv : Bool)
    (repl : GoString)
    (h : (DecodeRuneInString (c :: rest)).1 = RuneError ∧ (DecodeRuneInString (c :: rest)).2 = 1) :
    replaceLoop (fuel + 1) (c :: rest) inv repl
      = (if inv then [] else repl) ++ replaceLoop fuel rest true repl := by
  have hc : ¬ c.val < RuneSelf := by
    intro hc
    have := decode_ascii c rest hc
    rw [this] at h
    have := c.isLt
    simp [RuneError] at h
    omega
  cases inv <;> simp [replaceLoop, hc, h.2]

/-- One step of the second loop at a valid sequence. -/
theorem replaceLoop_valid (fuel : Nat) (c : Fin 256) (rest : GoString) (inv : Bool)
    (repl : GoString)
    (h : ¬ ((DecodeRuneInString (c :: rest)).1 = RuneError
      ∧ (DecodeRuneInString (c :: rest)).2 = 1)) :
    replaceLoop (fuel + 1) (c :: rest) inv repl
      = (c :: rest).take (DecodeRuneInString (c :: rest)).2
        ++ replaceLoop fuel ((c :: rest).drop (DecodeRuneInString (c :: rest)).2) false repl := by
  by_cases hc : c.val < RuneSelf
  · simp [replaceLoop, hc, decode_ascii c rest hc]
  · have hw : (DecodeRuneInString (c :: rest)).2 ≠ 1 :=
      fun hw => h ⟨decode_non_ascii_width_one c rest hc hw, hw⟩
    simp [replaceLoop, hc, hw]

theorem length_drop_decode_le (fuel : Nat) (c : Fin 256) (rest : GoString)
    (h : (c :: rest).length ≤ fuel + 1) :
    ((c :: rest).drop (DecodeRuneInString (c :: rest)).2).length ≤ fuel := by
  have := decode_width_pos c rest
  simp only [List.length_drop, List.length_cons] at h ⊢
  omega

/-- The second loop appends the rendering of the pieces, one replacement for
each run of invalid bytes. -/
theorem replaceLoop_eq_render (repl : GoString) :
    ∀ (fuel : Nat) (s : GoString) (inv : Bool), s.length ≤ fuel →
      replaceLoop fuel s inv repl
        = ((firstOfRuns inv (piecesAux fuel s)).map (Piece.render repl)).flatten := by
  intro fuel
  induction fuel with
  | zero =>
    intro s inv h
    simp [replaceLoop, piecesAux, firstOfRuns]
  | succ fuel ih =>
    intro s inv h
    cases s with
    | nil => simp [replaceLoop, piecesAux, firstOfRuns]
    | cons c rest =>
      by_cases hd : (DecodeRuneInString (c :: rest)).1 = RuneError
          ∧ (DecodeRuneInString (c :: rest)).2 = 1
      · rw [replaceLoop_invalid fuel c rest inv repl hd]
        have hr : rest.length ≤ fuel := by simpa using h
        rw [ih rest true hr]
        cases inv <;> simp [piecesAux, hd, firstOfRuns, Piece.render]
      · rw [replaceLoop_valid fuel c rest inv repl hd]
        rw [ih _ false (length_drop_decode_le fuel c rest h)]
        simp [piecesAux, hd, firstOfRuns, Piece.render]

/-- More fuel than bytes changes nothing in the second loop. -/
theorem replaceLoop_fuel (repl : GoString) :
    ∀ (f1 f2 : Nat) (s : GoString) (inv : Bool), s.length ≤ f1 → s.length ≤ f2 →
      replaceLoop f1 s inv repl = replaceLoop f2 s inv repl := by
  intro f1
  induction f1 with
  | zero =>
    intro f2 s inv h1 _
    have : s = [] := List.length_eq_zero.mp (Nat.le_zero.mp h1)
    subst this
    cases f2 <;> simp [replaceLoop]
  | succ f1 ih =>
    intro f2 s inv h1 h2
    cases s with
    | nil => cases f2 <;> simp [replaceLoop]
    | cons c rest =>
      cases f2 with
      | zero => simp at h2
      | succ f2 =>
        by_cases hd : (DecodeRuneInString (c :: rest)).1 = RuneError
            ∧ (DecodeRuneInString (c :: rest)).2 = 1
        · rw [replaceLoop_invalid f1 c rest inv repl hd, replaceLoop_invalid f2 c rest inv repl hd]
          rw [ih f2 rest true (by simpa using h1) (by simpa using h2)]
        · rw [replaceLoop_valid f1 c rest inv repl hd, replaceLoop_valid f2 c rest inv repl hd]
          rw [ih f2 _ false (length_drop_decode_le f1 c rest h1)
            (length_drop_decode_le f2 c rest h2)]

/-- The first loop only skips valid sequences, which the second loop would
copy: without an invalid byte the second loop copies everything, and with
one at offset `j` it copies what stands before it. -/
theorem firstInvalid_spec (repl : GoString) :
    ∀ (fuel : Nat) (s : GoString) (i : Nat), s.length ≤ fuel →
      (firstInvalid fuel s i = none → replaceLoop fuel s false repl = s) ∧
      (∀ j, firstInvalid fuel s i = some j → i ≤ j ∧
        ∀ f, (s.drop (j - i)).length ≤ f →
          replaceLoop fuel s false repl
            = s.take (j - i) ++ replaceLoop f (s.drop (j - i)) false repl) := by
  intro fuel
  induction fuel with
  | zero =>
    intro s i h
    have : s = [] := List.length_eq_zero.mp (Nat.le_zero.mp h)
    subst this
    simp [firstInvalid, replaceLoop]
  | succ fuel ih =>
    intro s i h
    cases s with
    | nil =>
      simp [firstInvalid, replaceLoop]
    | cons c rest =>
      by_cases hd : (DecodeRuneInString (c :: rest)).1 = RuneError
          ∧ (DecodeRuneInString (c :: rest)).2 = 1
      · have hf : firstInvalid (fuel + 1) (c :: rest) i = some i := by
          simp [firstInvalid, hd.1, hd.2]
        rw [hf]
        refine ⟨by simp, ?_⟩
        intro j hj
        have hji : j = i := by simpa using hj.symm
        subst hji
        refine ⟨le_refl _, ?_⟩
        intro f hfl
        simp only [Nat.sub_self, List.drop_zero, List.take_zero, List.nil_append] at hfl ⊢
        exact replaceLoop_fuel repl (fuel + 1) f (c :: rest) false h hfl
      · have hf : firstInvalid (fuel + 1) (c :: rest) i
            = firstInvalid fuel ((c :: rest).drop (DecodeRuneInString (c :: rest)).2)
                (i + (DecodeRuneInString (c :: rest)).2) := by
          by_cases h1 : (DecodeRuneInString (c :: rest)).1 = RuneError
          · have h2 : (DecodeRuneInString (c :: rest)).2 ≠ 1 := fun h2 => hd ⟨h1, h2⟩
            simp [firstInvalid, h1, h2]
          · simp [firstInvalid, h1]
        have hlen := length_drop_decode_le fuel c rest h
        have hpos := decode_width_pos c rest
        obtain ⟨ihn, ihs⟩ := ih _ (i + (DecodeRuneInString (c :: rest)).2) hlen
        rw [hf, replaceLoop_valid fuel c rest false repl hd]
        refine ⟨?_, ?_⟩
        · intro hn
          rw [ihn hn, List.take_append_drop]
        · intro j hj
          obtain ⟨hle, hrest⟩ := ihs j hj
          refine ⟨by omega, ?_⟩
          intro f hfl
          have hsplit : j - i = (DecodeRuneInString (c :: rest)).2
              + (j - (i + (DecodeRuneInString (c :: rest)).2)) := by omega
          have hdrop : List.drop (j - (i + (DecodeRuneInString (c :: rest)).2))
              (List.drop (DecodeRuneInString (c :: rest)).2 (c :: rest))
              = List.drop (j - i) (c :: rest) := by
            rw [List.drop_drop]; congr 1; omega
          rw [hrest f (by rw [hdrop]; exact hfl), hdrop, ← List.append_assoc]
          congr 1
          rw [hsplit, List.take_add]

/-- Go `strings.ToValidUTF8` is its second loop run on the whole string. -/
theorem ToValidUTF8_eq_replaceLoop (s repl : GoString) :
    ToValidUTF8 s repl = replaceLoop s.length s false repl := by
  obtain ⟨hn, hs⟩ := firstInvalid_spec repl s.length s 0 (le_refl _)
  unfold ToValidUTF8
  cases hfi : firstInvalid s.length s 0 with
  | none => simp only; exact (hn hfi).symm
  | some j =>
    obtain ⟨_, hj⟩ := hs j hfi
    simp only
    have := hj (s.length - j) (by simp)
    simpa using this.symm

/-- Go `strings.ToValidUTF8` replaces each maximal run of invalid bytes with
one replacement and keeps the valid sequences. -/
theorem ToValidUTF8_eq_replaceInvalidRuns (s repl : GoString) :
    ToValidUTF8 s repl = replaceInvalidRuns s repl := by
  rw [ToValidUTF8_eq_replaceLoop, replaceLoop_eq_render repl s.length s false (le_refl _)]
  rfl

/-- The pieces of a string, put together again, are the string. -/
theorem piecesAux_bytes :
    ∀ (fuel : Nat) (s : GoString), s.length ≤ fuel →
      ((piecesAux fuel s).map Piece.bytes).flatten = s := by
  intro fuel
  induction fuel with
  | zero =>
    intro s h
    have : s = [] := List.length_eq_zero.mp (Nat.le_zero.mp h)
    subst this
    simp [piecesAux]
  | succ fuel ih =>
    intro s h
    cases s with
    | nil => simp [piecesAux]
    | cons c rest =>
      by_cases hd : (DecodeRuneInString (c :: rest)).1 = RuneError
          ∧ (DecodeRuneInString (c :: rest)).2 = 1
      · have hr : rest.length ≤ fuel := by simpa using h
        simp [piecesAux, hd, Piece.bytes, ih rest hr]
      · have := ih _ (length_drop_decode_le fuel c rest h)
        simp only [piecesAux, hd, if_false, List.map_cons, List.flatten_cons, Piece.bytes, this]
        exact List.take_append_drop _ _

theorem firstOfRuns_valid (prev : Bool) (v : GoString) (rest : List Piece) :
    firstOfRuns prev (Piece.valid v :: rest) = Piece.valid v :: firstOfRuns false rest := by
  cases prev <;> simp [firstOfRuns]

theorem firstOfRuns_invalid_true (b : Fin 256) (rest : List Piece) :
    firstOfRuns true (Piece.invalid b :: rest) = firstOfRuns true rest := by
  simp [firstOfRuns]

theorem firstOfRuns_invalid_false (b : Fin 256) (rest : List Piece) :
    firstOfRuns false (Piece.invalid b :: rest) = Piece.invalid b :: firstOfRuns true rest := by
  simp [firstOfRuns]

theorem countP_valid_cons (v : GoString) (ps : List Piece) :
    (Piece.valid v :: ps).countP Piece.isInvalid = ps.countP Piece.isInvalid :=
  List.countP_cons_of_neg Piece.isInvalid ps (by simp [Piece.isInvalid])

theorem countP_invalid_cons (b : Fin 256) (ps : List Piece) :
    (Piece.invalid b :: ps).countP Piece.isInvalid = ps.countP Piece.isInvalid + 1 :=
  List.countP_cons_of_pos Piece.isInvalid ps (by simp [Piece.isInvalid])

/-- Keeping the first byte of each run keeps at most as many invalid bytes. -/
theorem countP_firstOfRuns_le :
    ∀ (ps : List Piece) (prev : Bool),
      (firstOfRuns prev ps).countP Piece.isInvalid ≤ ps.countP Piece.isInvalid := by
  intro ps
  induction ps with
  | nil => intro prev; simp [firstOfRuns]
  | cons p rest ih =>
    intro prev
    cases p with
    | valid v =>
      rw [firstOfRuns_valid, countP_valid_cons, countP_valid_cons]
      exact ih false
    | invalid b =>
      cases prev with
      | true =>
        rw [firstOfRuns_invalid_true, countP_invalid_cons]
        have := ih true
        omega
      | false =>
        rw [firstOfRuns_invalid_false, countP_invalid_cons, countP_invalid_cons]
        have := ih true
        omega

/-- When no invalid byte was dropped, no piece was dropped. -/
theorem firstOfRuns_eq_self :
    ∀ (ps : List Piece) (prev : Bool),
      (firstOfRuns prev ps).countP Piece.isInvalid = ps.countP Piece.isInvalid →
      firstOfRuns prev ps = ps := by
  intro ps
  induction ps with
  | nil => intro prev _; simp [firstOfRuns]
  | cons p rest ih =>
    intro prev h
    cases p with
    | valid v =>
      rw [firstOfRuns_valid, countP_valid_cons, countP_valid_cons] at h
      rw [firstOfRuns_valid, ih false h]
    | invalid b =>
      cases prev with
      | true =>
        rw [firstOfRuns_invalid_true, countP_invalid_cons] at h
        have := countP_firstOfRuns_le rest true
        omega
      | false =>
        rw [firstOfRuns_invalid_false, countP_invalid_cons, countP_invalid_cons] at h
        rw [firstOfRuns_invalid_false, ih true (by omega)]

/-- The length of the rendering: every kept invalid byte stands for three
bytes, every dropped one for none. -/
theorem length_render_firstOfRuns :
    ∀ (ps : List Piece) (prev : Bool),
      (((firstOfRuns prev ps).map (Piece.render replacementChar)).flatten).length
          + ps.countP Piece.isInvalid
        = ((ps.map Piece.bytes).flatten).length
          + 3 * (firstOfRuns prev ps).countP Piece.isInvalid := by
  intro ps
  induction ps with
  | nil => intro prev; simp [firstOfRuns]
  | cons p rest ih =>
    intro prev
    cases p with
    | valid v =>
      have := ih false
      rw [firstOfRuns_valid, countP_valid_cons, countP_valid_cons, List.map_cons, List.map_cons,
        List.flatten_cons, List.flatten_cons, List.length_append, List.length_append]
      simp only [Piece.render, Piece.bytes]
      omega
    | invalid b =>
      cases prev with
      | true =>
        have := ih true
        rw [firstOfRuns_invalid_true, countP_invalid_cons, List.map_cons,
          List.flatten_cons, List.length_append]
        simp only [Piece.bytes, List.length_singleton]
        omega
      | false =>
        have := ih true
        rw [firstOfRuns_invalid_false, countP_invalid_cons, countP_invalid_cons, List.map_cons,
          List.map_cons, List.flatten_cons, List.flatten_cons, List.length_append,
          List.length_append]
        have h3 : replacementChar.length = 3 := rfl
        simp only [Piece.render, Piece.bytes, List.length_singleton, h3]
        omega

/-! ## The sanitization: the claim -/

/-- C9 (amended). The name the sanitization stores is obtained by replacing
each maximal run of adjacent bytes that are not part of a valid UTF-8 sequence
with one U+FFFD character and keeping every valid sequence as it is. The
pieces are a division of the input; an input with k invalid bytes in r runs
gets r replacement characters, r is at most k, the output has three bytes for
each run in place of the invalid bytes, and when no two invalid bytes are
adjacent (r = k) the replacement is byte for byte. -/
theorem ToValidUTF8_replaces_runs (s : GoString) :
    ToValidUTF8 s replacementChar = replaceInvalidRuns s replacementChar ∧
    ((pieces s).map Piece.bytes).flatten = s ∧
    invalidRuns s ≤ invalidBytes s ∧
    (ToValidUTF8 s replacementChar).length + invalidBytes s
      = s.length + 3 * invalidRuns s ∧
    (invalidRuns s = invalidBytes s →
      ToValidUTF8 s replacementChar = replaceEachInvalid s replacementChar) := by
  have hb := piecesAux_bytes s.length s (le_refl _)
  refine ⟨ToValidUTF8_eq_replaceInvalidRuns s replacementChar, hb,
    countP_firstOfRuns_le (pieces s) false, ?_, ?_⟩
  · rw [ToValidUTF8_eq_replaceInvalidRuns]
    have := length_render_firstOfRuns (pieces s) false
    unfold pieces at this
    rw [hb] at this
    exact this
  · intro h
    rw [ToValidUTF8_eq_replaceInvalidRuns]
    unfold replaceInvalidRuns replaceEachInvalid
    rw [firstOfRuns_eq_self (pieces s) false h]

/-- C9, for `a`, an invalid byte, `b`: one invalid byte in one run, replaced
byte for byte. -/
theorem ToValidUTF8_replaces_runs_witness :
    invalidRuns [0x61, 0xFF, 0x62] = invalidBytes [0x61, 0xFF, 0x62] ∧
    ToValidUTF8 [0x61, 0xFF, 0x62] replacementChar
      = replaceEachInvalid [0x61, 0xFF, 0x62] replacementChar :=
  ⟨by decide, (ToValidUTF8_replaces_runs [0x61, 0xFF, 0x62]).2.2.2.2 (by decide)⟩

/-- C9, the claim as stated fails for adjacent invalid bytes: the input FF FF
has two invalid bytes, and the result is one replacement character, not the
two a byte-for-byte replacement gives. -/
theorem ToValidUTF8_collapses_adjacent :
    invalidBytes [0xFF, 0xFF] = 2 ∧
    ToValidUTF8 [0xFF, 0xFF] replacementChar = replacementChar ∧
    countOccurrences replacementChar (ToValidUTF8 [0xFF, 0xFF] replacementChar) = 1 ∧
    replaceEachInvalid [0xFF, 0xFF] replacementChar = replacementChar ++ replacementChar ∧
    ToValidUTF8 [0xFF, 0xFF] replacementChar
      ≠ replaceEachInvalid [0xFF, 0xFF] replacementChar := by
  decide

/-! ## Facts about the registry -/

theorem get_delete (m : PeerMap) (key k : GoString) :
    PeerMap.get (PeerMap.delete m key) k = if k = key then none else PeerMap.get m k := by
  induction m with
  | nil => simp [PeerMap.delete, PeerMap.get]
  | cons e rest ih =>
    obtain ⟨k0, p0⟩ := e
    by_cases h0 : k0 = key
    · subst h0
      have : PeerMap.delete ((k0, p0) :: rest) k0 = PeerMap.delete rest k0 := by
        simp [PeerMap.delete]
      rw [this, ih]
      by_cases hk : k = k0
      · simp [hk]
      · have : ¬ k0 = k := fun h => hk h.symm
        simp [hk, PeerMap.get, this]
    · have : PeerMap.delete ((k0, p0) :: rest) key = (k0, p0) :: PeerMap.delete rest key := by
        simp [PeerMap.delete, h0]
      rw [this]
      by_cases hk : k0 = k
      · subst hk
        simp [PeerMap.get, h0]
      · simp only [PeerMap.get, hk, if_false]
        exact ih

theorem get_set (m : PeerMap) (key k : GoString) (p : peer) :
    PeerMap.get (PeerMap.set m key p) k = if k = key then some p else PeerMap.get m k := by
  by_cases hk : k = key
  · subst hk
    simp [PeerMap.set, PeerMap.get]
  · have : ¬ key = k := fun h => hk h.symm
    simp [PeerMap.set, PeerMap.get, this, get_delete, hk]

theorem mem_keys_iff (m : PeerMap) (k : GoString) :
    k ∈ PeerMap.keys m ↔ PeerMap.get m k ≠ none := by
  unfold PeerMap.keys
  rw [List.mem_dedup]
  induction m with
  | nil => simp [PeerMap.get]
  | cons e rest ih =>
    obtain ⟨k0, p0⟩ := e
    by_cases h0 : k0 = k
    · simp [PeerMap.get, h0]
    · have : ¬ k = k0 := fun h => h0 h.symm
      simp only [List.map_cons, List.mem_cons, this, false_or, PeerMap.get, h0, if_false]
      exact ih

/-- The record the key of an announcement has after `Notify`. -/
theorem get_Notify_key (now : Time) (d : Discovered) (peers : PeerMap) :
    PeerMap.get (Notify now d peers).1 (d.Address ++ str ":" ++ d.Payload)
      = match PeerMap.get peers (d.Address ++ str ":" ++ d.Payload) with
        | none => some { ip := d.Address, Name := d.Address, lastSeen := now }
        | some p => some { p with lastSeen := now } := by
  unfold Notify
  dsimp only
  generalize d.Address ++ str ":" ++ d.Payload = key
  cases h : PeerMap.get peers key with
  | none => simp [get_set]
  | some p => simp [h, get_set]

/-- Another key keeps its record through `Notify`. -/
theorem get_Notify_other (now : Time) (d : Discovered) (peers : PeerMap) (k : GoString)
    (hk : k ≠ d.Address ++ str ":" ++ d.Payload) :
    PeerMap.get (Notify now d peers).1 k = PeerMap.get peers k := by
  unfold Notify
  dsimp only
  revert hk
  generalize d.Address ++ str ":" ++ d.Payload = key
  intro hk
  cases h : PeerMap.get peers key with
  | none => simp [get_set, hk]
  | some p => simp [h, get_set, hk]

/-- The loop of the timeout pass over a list of keys: a visited key whose
record is too old is gone, every other key is as it was. -/
theorem get_sweep_fold (clock : GoString → Time) (peers : PeerMap) (k : GoString) :
    ∀ (ks : List GoString) (acc : PeerMap),
      PeerMap.get (ks.foldl
        (fun m addr =>
          match peers.get addr with
          | some p =>
            if Time.Before (Time.Add p.lastSeen (5 * pingInterval)) (clock addr)
            then m.delete addr else m
          | none => m) acc) k
      = if k ∈ ks ∧ (∃ p, PeerMap.get peers k = some p
            ∧ Time.Before (Time.Add p.lastSeen (5 * pingInterval)) (clock k) = true)
        then none else PeerMap.get acc k := by
  intro ks
  induction ks with
  | nil => intro acc; simp
  | cons a rest ih =>
    intro acc
    rw [List.foldl_cons, ih]
    by_cases hex : ∃ p, PeerMap.get peers k = some p
        ∧ Time.Before (Time.Add p.lastSeen (5 * pingInterval)) (clock k) = true
    · by_cases hr : k ∈ rest
      · simp [hr, hex]
      · by_cases ha : k = a
        · subst ha
          obtain ⟨p, hp, hb⟩ := hex
          simp [hr, hp, hb, get_delete]
        · simp only [hr, false_and, if_false, List.mem_cons, ha, false_or]
          cases hpa : PeerMap.get peers a with
          | none => rfl
          | some pa =>
            simp only
            split
            · rw [get_delete, if_neg ha]
            · rfl
    · simp only [hex, and_false, if_false]
      cases hpa : PeerMap.get peers a with
      | none => rfl
      | some pa =>
        simp only
        split
        · rename_i hb
          have ha : k ≠ a := by
            intro ha
            subst ha
            exact hex ⟨pa, hpa, hb⟩
          rw [get_delete, if_neg ha]
        · rfl

/-- What a key holds after one timeout pass. -/
theorem get_timeoutSweep (clock : GoString → Time) (peers : PeerMap) (k : GoString) :
    PeerMap.get (timeoutSweep clock peers) k
      = match PeerMap.get peers k with
        | some p =>
          if Time.Before (Time.Add p.lastSeen (5 * pingInterval)) (clock k) then none
          else some p
        | none => none := by
  unfold timeoutSweep
  rw [get_sweep_fold]
  cases h : PeerMap.get peers k with
  | none => simp
  | some p =>
    by_cases hb : Time.Before (Time.Add p.lastSeen (5 * pingInterval)) (clock k) = true
    · simp [hb, mem_keys_iff, h]
    · simp [hb]

theorem before_add_iff (t d u : Int) : Time.Before (Time.Add t d) u = true ↔ t + d < u := by
  simp [Time.Before, Time.Add]

/-! ## Facts about the control surface -/

theorem setName_ne_setRoot : str "setName" ≠ str "setRoot" := by decide
theorem setName_ne_getName : str "setName" ≠ str "getName" := by decide
theorem getName_ne_setRoot : str "getName" ≠ str "setRoot" := by decide

theorem CopyN_short (b : Body) (hlen : b.data.length ≤ 64) (hfail : b.fail = none) :
    CopyN b 65 = (b.data, error.EOF) := by
  have h1 : (b.data.take 65).length ≠ 65 := by
    rw [List.length_take]; omega
  have h2 : b.data.take 65 = b.data := List.take_of_length_le (by omega)
  have h3 : b.data.length ≠ 65 := by omega
  simp only [CopyN, hfail, h2, h3, if_false]

theorem CopyN_long (b : Body) (hlen : 65 ≤ b.data.length) :
    CopyN b 65 = (b.data.take 65, error.nil) := by
  have h1 : (b.data.take 65).length = 65 := by
    rw [List.length_take]; omega
  simp only [CopyN, h1, if_true]

/-- The set-name branch for a loopback POST. -/
theorem serve_setName_loopback_post (st : State) (r : Request)
    (hpath : TrimPrefix r.Path (str "/.api/") = str "setName")
    (hip : IP.IsLoopback r.RemoteIP = true) (hm : r.Method = str "POST") :
    serve st r =
      match CopyN r.Body 65 with
      | (newName, err) =>
        if !isEOF err then
          if err = error.nil then
            ⟨Fprintln (ResponseWriter.new.WriteHeader StatusBadRequest)
              (str "Name was longer than 64 bytes, rejected"), st, true⟩
          else
            ⟨Fprintln (ResponseWriter.new.WriteHeader StatusInternalServerError)
              (str "500 Internal Server Error\nCouldn't read request body: " ++ err.Error),
              st, true⟩
        else
          ⟨ResponseWriter.new.WriteHeader StatusOK,
            { st with name := ToValidUTF8 newName replacementChar }, true⟩ := by
  simp [serve, apiHandler, loopbackOnly, hpath, hip, hm, setName_ne_setRoot, setName_ne_getName]

/-- The get-name branch. -/
theorem serve_getName (st : State) (r : Request)
    (hpath : TrimPrefix r.Path (str "/.api/") = str "getName") :
    serve st r =
      ⟨Fprint (if st.name = [] then
          Fprintln (ResponseWriter.new.WriteHeader StatusNotFound) (str "404 Not Found")
        else ResponseWriter.new) st.name, st, false⟩ := by
  simp [serve, apiHandler, hpath, getName_ne_setRoot]

theorem getName_of_nonempty (st : State) (r : Request)
    (hpath : TrimPrefix r.Path (str "/.api/") = str "getName") (hname : st.name ≠ []) :
    (serve st r).w.StatusCode = 200 ∧ (serve st r).w.body = st.name := by
  rw [serve_getName st r hpath]
  simp [hname, Fprint, ResponseWriter.Write, ResponseWriter.WriteHeader, ResponseWriter.new,
    ResponseWriter.StatusCode, StatusOK]

theorem getName_of_empty (st : State) (r : Request)
    (hpath : TrimPrefix r.Path (str "/.api/") = str "getName") (hname : st.name = []) :
    (serve st r).w.StatusCode = 404 ∧ (serve st r).w.body = str "404 Not Found\n" := by
  rw [serve_getName st r hpath]
  simp only [hname, if_true]
  constructor
  · rfl
  · decide

/-- A non-empty string stays non-empty through the sanitization. -/
theorem ToValidUTF8_ne_nil (s : GoString) (hs : s ≠ []) :
    ToValidUTF8 s replacementChar ≠ [] := by
  rw [ToValidUTF8_eq_replaceLoop]
  cases s with
  | nil => exact absurd rfl hs
  | cons c rest =>
    by_cases hd : (DecodeRuneInString (c :: rest)).1 = RuneError
        ∧ (DecodeRuneInString (c :: rest)).2 = 1
    · rw [List.length_cons, replaceLoop_invalid _ c rest false replacementChar hd]
      simp [replacementChar]
    · rw [List.length_cons, replaceLoop_valid _ c rest false replacementChar hd]
      have hpos := decode_width_pos c rest
      obtain ⟨n, hn⟩ : ∃ n, (DecodeRuneInString (c :: rest)).2 = n + 1 := ⟨_, (Nat.sub_add_cancel hpos).symm⟩
      rw [hn]
      simp

theorem ToValidUTF8_nil : ToValidUTF8 [] replacementChar = [] := by decide

/-! ## The control surface: the claims -/

/-- C1 (amended). For a loopback POST to set-name whose body is read without a
transport error: a body of at most 64 bytes gives status 200 and makes the
stored name the sanitized body, which a following get-name returns with
status 200 when the body is non-empty, while after an empty body get-name
answers 404 with the body "404 Not Found"; a body of 65 bytes or more gives
status 400 and leaves the state as it was. -/
theorem setName_length_boundary (st : State) (r : Request)
    (hpath : TrimPrefix r.Path (str "/.api/") = str "setName")
    (hip : IP.IsLoopback r.RemoteIP = true) (hm : r.Method = str "POST")
    (hbody : r.Body.fail = none) :
    (r.Body.data.length ≤ 64 →
      (serve st r).w.StatusCode = 200 ∧
      (serve st r).st = { st with name := ToValidUTF8 r.Body.data replacementChar } ∧
      ∀ q : Request, TrimPrefix q.Path (str "/.api/") = str "getName" →
        (r.Body.data ≠ [] →
          (serve (serve st r).st q).w.StatusCode = 200 ∧
          (serve (serve st r).st q).w.body = ToValidUTF8 r.Body.data replacementChar) ∧
        (r.Body.data = [] →
          (serve (serve st r).st q).w.StatusCode = 404 ∧
          (serve (serve st r).st q).w.body = str "404 Not Found\n")) ∧
    (65 ≤ r.Body.data.length →
      (serve st r).w.StatusCode = 400 ∧ (serve st r).st = st) := by
  rw [serve_setName_loopback_post st r hpath hip hm]
  constructor
  · intro hlen
    rw [CopyN_short r.Body hlen hbody]
    refine ⟨rfl, rfl, ?_⟩
    intro q hq
    constructor
    · intro hne
      exact getName_of_nonempty _ q hq (ToValidUTF8_ne_nil _ hne)
    · intro he
      refine getName_of_empty _ q hq ?_
      simp [isEOF, he, ToValidUTF8_nil]
  · intro hlen
    rw [CopyN_long r.Body hlen]
    exact ⟨rfl, rfl⟩

/-- C1, at a body of exactly 64 bytes and at one of 65 bytes. -/
theorem setName_length_boundary_witness :
    IP.IsLoopback localhost = true ∧ name64.length = 64 ∧ name65.length = 65 ∧
    (serve sampleState (apiRequest "POST" "setName" localhost name64)).w.StatusCode = 200 ∧
    (serve sampleState (apiRequest "POST" "setName" localhost name64)).st.name
      = ToValidUTF8 name64 replacementChar ∧
    (serve (serve sampleState (apiRequest "POST" "setName" localhost name64)).st
      (apiRequest "GET" "getName" lanHost [])).w.body = ToValidUTF8 name64 replacementChar ∧
    (serve sampleState (apiRequest "POST" "setName" localhost name65)).w.StatusCode = 400 ∧
    (serve sampleState (apiRequest "POST" "setName" localhost name65)).st = sampleState :=
  have h64 := (setName_length_boundary sampleState (apiRequest "POST" "setName" localhost name64)
    (by decide) (by decide) (by decide) rfl).1 (by decide)
  have h65 := (setName_length_boundary sampleState (apiRequest "POST" "setName" localhost name65)
    (by decide) (by decide) (by decide) rfl).2 (by decide)
  ⟨by decide, by decide, by decide, h64.1, congrArg State.name h64.2.1,
    ((h64.2.2 (apiRequest "GET" "getName" lanHost []) (by decide)).1 (by decide)).2,
    h65.1, h65.2⟩

/-- C1, the claim as stated fails at the empty body: the request succeeds
with status 200 and stores the empty name, and the following get-name does
not return it with status 200 but answers 404 with a body that is not the
stored name. -/
theorem setName_empty_body_getName_not_found :
    IP.IsLoopback localhost = true ∧
    (apiRequest "POST" "setName" localhost []).Body.data.length ≤ 64 ∧
    (serve sampleState (apiRequest "POST" "setName" localhost [])).w.StatusCode = 200 ∧
    (serve sampleState (apiRequest "POST" "setName" localhost [])).st.name
      = ToValidUTF8 [] replacementChar ∧
    (serve (serve sampleState (apiRequest "POST" "setName" localhost [])).st
      (apiRequest "GET" "getName" localhost [])).w.StatusCode = 404 ∧
    (serve (serve sampleState (apiRequest "POST" "setName" localhost [])).st
      (apiRequest "GET" "getName" localhost [])).w.body
      ≠ (serve sampleState (apiRequest "POST" "setName" localhost [])).st.name := by
  decide

/-- C2. A request to set-name or set-root whose remote address is not a
loopback IP, an address that cannot be parsed included, is answered with
status 403 and leaves the name, the served root and the file-serving handler
as they were; the body is not read, and neither the method nor the body has
any influence on the outcome. -/
theorem non_loopback_forbidden (st : State) (r : Request)
    (hpath : TrimPrefix r.Path (str "/.api/") = str "setName"
      ∨ TrimPrefix r.Path (str "/.api/") = str "setRoot")
    (hip : IP.IsLoopback r.RemoteIP = false) :
    (serve st r).w.StatusCode = 403 ∧ (serve st r).st = st ∧ (serve st r).bodyRead = false ∧
    ∀ (m : GoString) (b : Body), serve st { r with Method := m, Body := b } = serve st r := by
  rcases hpath with hpath | hpath
  · have h : ∀ (m : GoString) (b : Body), serve st { r with Method := m, Body := b }
        = ⟨Fprintln (ResponseWriter.new.WriteHeader StatusForbidden) (str "403 Forbidden"),
            st, false⟩ := by
      intro m b
      simp [serve, apiHandler, loopbackOnly, hpath, hip, setName_ne_setRoot, setName_ne_getName]
    have h0 := h r.Method r.Body
    simp only at h0
    refine ⟨?_, ?_, ?_, ?_⟩
    · rw [h0]; rfl
    · rw [h0]
    · rw [h0]
    · intro m b; rw [h m b, h0]
  · have h : ∀ (m : GoString) (b : Body), serve st { r with Method := m, Body := b }
        = ⟨Fprintln (ResponseWriter.new.WriteHeader StatusForbidden) (str "403 Forbidden"),
            st, false⟩ := by
      intro m b
      simp [serve, apiHandler, loopbackOnly, hpath, hip]
    have h0 := h r.Method r.Body
    simp only at h0
    refine ⟨?_, ?_, ?_, ?_⟩
    · rw [h0]; rfl
    · rw [h0]
    · rw [h0]
    · intro m b; rw [h m b, h0]

/-- C2, for a POST to set-name from a LAN address and for a POST to set-root
from an address that could not be parsed. -/
theorem non_loopback_forbidden_witness :
    IP.IsLoopback lanHost = false ∧ IP.IsLoopback [] = false ∧
    (serve sampleState (apiRequest "POST" "setName" lanHost (str "eve"))).w.StatusCode = 403 ∧
    (serve sampleState (apiRequest "POST" "setName" lanHost (str "eve"))).st = sampleState ∧
    (serve sampleState (apiRequest "POST" "setRoot" [] (str "/etc"))).w.StatusCode = 403 ∧
    (serve sampleState (apiRequest "POST" "setRoot" [] (str "/etc"))).st = sampleState ∧
    (serve sampleState (apiRequest "POST" "setRoot" [] (str "/etc"))).bodyRead = false :=
  have h1 := non_loopback_forbidden sampleState (apiRequest "POST" "setName" lanHost (str "eve"))
    (Or.inl (by decide)) (by decide)
  have h2 := non_loopback_forbidden sampleState (apiRequest "POST" "setRoot" [] (str "/etc"))
    (Or.inr (by decide)) (by decide)
  ⟨by decide, by decide, h1.1, h1.2.1, h2.1, h2.2.1, h2.2.2.1⟩

/-- C3 (amended). Get-name never changes the state and answers every caller
alike; for a non-empty stored name the status is 200 and the body is the
name, and for the empty stored name the status is 404 and the body is
"404 Not Found" with a newline. -/
theorem getName_status_and_body (st : State) (r : Request)
    (hpath : TrimPrefix r.Path (str "/.api/") = str "getName") :
    (serve st r).st = st ∧
    (st.name ≠ [] → (serve st r).w.StatusCode = 200 ∧ (serve st r).w.body = st.name) ∧
    (st.name = [] →
      (serve st r).w.StatusCode = 404 ∧ (serve st r).w.body = str "404 Not Found\n") := by
  refine ⟨?_, getName_of_nonempty st r hpath, getName_of_empty st r hpath⟩
  rw [serve_getName st r hpath]

/-- C3, for a named daemon asked from the LAN and an unnamed one asked from
the local machine. -/
theorem getName_status_and_body_witness :
    (serve sampleState (apiRequest "GET" "getName" lanHost [])).w.StatusCode = 200 ∧
    (serve sampleState (apiRequest "GET" "getName" lanHost [])).w.body = str "bob@host" ∧
    (serve unnamedState (apiRequest "GET" "getName" localhost [])).w.StatusCode = 404 :=
  have h1 := (getName_status_and_body sampleState (apiRequest "GET" "getName" lanHost [])
    (by decide)).2.1 (by decide)
  have h2 := (getName_status_and_body unnamedState (apiRequest "GET" "getName" localhost [])
    (by decide)).2.2 (by decide)
  ⟨h1.1, h1.2, h2.1⟩

/-- C3, the claim as stated fails for the empty stored name: the status is
not 200 and the body is not the stored name. -/
theorem getName_empty_name_not_ok :
    unnamedState.name = [] ∧
    (serve unnamedState (apiRequest "GET" "getName" lanHost [])).w.StatusCode ≠ 200 ∧
    (serve unnamedState (apiRequest "GET" "getName" lanHost [])).w.StatusCode = 404 ∧
    (serve unnamedState (apiRequest "GET" "getName" lanHost [])).w.body ≠ unnamedState.name ∧
    (serve unnamedState (apiRequest "GET" "getName" lanHost [])).w.body
      = str "404 Not Found\n" := by
  decide

/-- C4. For a loopback POST to set-root whose body is read without error: a
body that is not an absolute path gives status 400 and leaves the state as it
was; an absolute path gives status 200 and makes `fsRoot` and the root of the
file-serving handler exactly that path, the name staying as it was. -/
theorem setRoot_absolute_only (st : State) (r : Request)
    (hpath : TrimPrefix r.Path (str "/.api/") = str "setRoot")
    (hip : IP.IsLoopback r.RemoteIP = true) (hm : r.Method = str "POST")
    (hbody : r.Body.fail = none) :
    (IsAbs r.Body.data = false →
      (serve st r).w.StatusCode = 400 ∧ (serve st r).st = st) ∧
    (IsAbs r.Body.data = true →
      (serve st r).w.StatusCode = 200 ∧
      (serve st r).st = { st with fsRoot := r.Body.data, httpFs := ⟨r.Body.data⟩ }) := by
  constructor
  · intro habs
    have : serve st r = ⟨Fprintln (ResponseWriter.new.WriteHeader StatusBadRequest)
        (str "400 Bad Request\nProvided root path is not an absolute path"), st, true⟩ := by
      simp [serve, apiHandler, loopbackOnly, hpath, hip, hm, ReadAll, hbody, habs]
    rw [this]
    exact ⟨rfl, rfl⟩
  · intro habs
    have : serve st r = ⟨ResponseWriter.new.WriteHeader StatusOK,
        { st with fsRoot := r.Body.data, httpFs := ⟨r.Body.data⟩ }, true⟩ := by
      simp [serve, apiHandler, loopbackOnly, hpath, hip, hm, ReadAll, hbody, habs]
    rw [this]
    exact ⟨rfl, rfl⟩

/-- C4, for the relative path `www` and the absolute path `/srv/www`. -/
theorem setRoot_absolute_only_witness :
    IsAbs (str "www") = false ∧ IsAbs (str "/srv/www") = true ∧
    (serve sampleState (apiRequest "POST" "setRoot" localhost (str "www"))).w.StatusCode = 400 ∧
    (serve sampleState (apiRequest "POST" "setRoot" localhost (str "www"))).st = sampleState ∧
    (serve sampleState (apiRequest "POST" "setRoot" localhost (str "/srv/www"))).w.StatusCode
      = 200 ∧
    (serve sampleState (apiRequest "POST" "setRoot" localhost (str "/srv/www"))).st
      = { sampleState with fsRoot := str "/srv/www", httpFs := ⟨str "/srv/www"⟩ } :=
  have h1 := (setRoot_absolute_only sampleState
    (apiRequest "POST" "setRoot" localhost (str "www")) (by decide) (by decide) (by decide)
    rfl).1 (by decide)
  have h2 := (setRoot_absolute_only sampleState
    (apiRequest "POST" "setRoot" localhost (str "/srv/www")) (by decide) (by decide) (by decide)
    rfl).2 (by decide)
  ⟨by decide, by decide, h1.1, h1.2, h2.1, h2.2⟩

/-- C10 (amended). A request from a loopback address to set-name or set-root
whose method is not POST is answered with status 405 and leaves the name and
the served root as they were; the body is not read. -/
theorem wrong_method_not_allowed (st : State) (r : Request)
    (hpath : TrimPrefix r.Path (str "/.api/") = str "setName"
      ∨ TrimPrefix r.Path (str "/.api/") = str "setRoot")
    (hip : IP.IsLoopback r.RemoteIP = true) (hm : r.Method ≠ str "POST") :
    (serve st r).w.StatusCode = 405 ∧ (serve st r).st = st ∧ (serve st r).bodyRead = false := by
  have h : serve st r = ⟨Fprintln (ResponseWriter.new.WriteHeader StatusMethodNotAllowed)
      (str "403 Method Not Allowed\nUse POST"), st, false⟩ := by
    rcases hpath with hpath | hpath
    · simp [serve, apiHandler, loopbackOnly, hpath, hip, hm, setName_ne_setRoot,
        setName_ne_getName]
    · simp [serve, apiHandler, loopbackOnly, hpath, hip, hm]
  rw [h]
  exact ⟨rfl, rfl, rfl⟩

/-- C10, for a GET to set-name and a PUT to set-root from the local machine. -/
theorem wrong_method_not_allowed_witness :
    IP.IsLoopback localhost = true ∧ str "GET" ≠ str "POST" ∧
    (serve sampleState (apiRequest "GET" "setName" localhost (str "al"))).w.StatusCode = 405 ∧
    (serve sampleState (apiRequest "GET" "setName" localhost (str "al"))).st = sampleState ∧
    (serve sampleState (apiRequest "PUT" "setRoot" localhost (str "/srv"))).w.StatusCode = 405 ∧
    (serve sampleState (apiRequest "PUT" "setRoot" localhost (str "/srv"))).st = sampleState :=
  have h1 := wrong_method_not_allowed sampleState
    (apiRequest "GET" "setName" localhost (str "al")) (Or.inl (by decide)) (by decide)
    (by decide)
  have h2 := wrong_method_not_allowed sampleState
    (apiRequest "PUT" "setRoot" localhost (str "/srv")) (Or.inr (by decide)) (by decide)
    (by decide)
  ⟨by decide, by decide, h1.1, h1.2.1, h2.1, h2.2.1⟩

/-- C10, the claim as stated fails: a loopback GET to set-name and a loopback
GET to set-root are not answered with status 403. -/
theorem wrong_method_status_not_403 :
    IP.IsLoopback localhost = true ∧
    (apiRequest "GET" "setName" localhost []).Method ≠ str "POST" ∧
    (serve sampleState (apiRequest "GET" "setName" localhost [])).w.StatusCode ≠ 403 ∧
    (serve sampleState (apiRequest "GET" "setName" localhost [])).w.StatusCode = 405 ∧
    (serve sampleState (apiRequest "GET" "setRoot" localhost [])).w.StatusCode ≠ 403 ∧
    (serve sampleState (apiRequest "GET" "setRoot" localhost [])).w.StatusCode = 405 := by
  decide

/-- The record of the sender after a run of announcements is stamped with the
time of the last one. -/
theorem get_notifyAll_snoc (d : Discovered) (ts : List Time) (t : Time) (peers : PeerMap) :
    ∃ p, PeerMap.get (notifyAll d (ts ++ [t]) peers) (d.Address ++ str ":" ++ d.Payload)
      = some p ∧ p.lastSeen = t := by
  unfold notifyAll
  rw [List.foldl_append, List.foldl_cons, List.foldl_nil, get_Notify_key]
  cases PeerMap.get (List.foldl (fun m t => (Notify t d m).1) peers ts)
      (d.Address ++ str ":" ++ d.Payload) with
  | none => exact ⟨_, rfl, rfl⟩
  | some p => exact ⟨_, rfl, rfl⟩

/-- The last element of a non-decreasing list bounds the others. -/
theorem le_last_of_pairwise (ts : List Time) (t : Time)
    (h : (ts ++ [t]).Pairwise (fun a b => a ≤ b)) : ∀ x ∈ ts ++ [t], x ≤ t := by
  intro x hx
  rw [List.pairwise_append] at h
  rcases List.mem_append.mp hx with hx | hx
  · exact h.2.2 x hx t (by simp)
  · have : x = t := by simpa using hx
    rw [this]

/-! ## The peer registry: the claims -/

/-- C5. After the `Notify` handler has run at time `now` for an announcement
with address `a` and payload `p`, with key `a:p`: a key that was absent holds
a record with name `a`, address `a` and last-seen time `now`; a key that was
present holds its record with only the last-seen time changed to `now`; every
other key holds what it held before, so no key is removed. -/
theorem Notify_upsert (now : Time) (d : Discovered) (peers : PeerMap) :
    (PeerMap.get peers (d.Address ++ str ":" ++ d.Payload) = none →
      PeerMap.get (Notify now d peers).1 (d.Address ++ str ":" ++ d.Payload)
        = some { ip := d.Address, Name := d.Address, lastSeen := now }) ∧
    (∀ p, PeerMap.get peers (d.Address ++ str ":" ++ d.Payload) = some p →
      PeerMap.get (Notify now d peers).1 (d.Address ++ str ":" ++ d.Payload)
        = some { ip := p.ip, Name := p.Name, lastSeen := now }) ∧
    (∀ k, k ≠ d.Address ++ str ":" ++ d.Payload →
      PeerMap.get (Notify now d peers).1 k = PeerMap.get peers k) := by
  refine ⟨?_, ?_, ?_⟩
  · intro h
    rw [get_Notify_key, h]
  · intro p h
    rw [get_Notify_key, h]
  · intro k hk
    exact get_Notify_other now d peers k hk

/-- C5, for a first announcement into an empty registry, and for a second one
that finds the record with a resolved name. -/
theorem Notify_upsert_witness :
    PeerMap.get (Notify 7 sampleSender []).1 sampleKey
      = some { ip := str "10.0.0.2", Name := str "10.0.0.2", lastSeen := 7 } ∧
    PeerMap.get (Notify 7 sampleSender [(sampleKey, samplePeer)]).1 sampleKey
      = some { ip := str "10.0.0.2", Name := str "carol", lastSeen := 7 } ∧
    PeerMap.get (Notify 7 sampleSender [(str "10.0.0.3:80", samplePeer)]).1 (str "10.0.0.3:80")
      = some samplePeer :=
  ⟨(Notify_upsert 7 sampleSender []).1 (by decide),
   (Notify_upsert 7 sampleSender [(sampleKey, samplePeer)]).2.1 samplePeer (by decide),
   (Notify_upsert 7 sampleSender [(str "10.0.0.3:80", samplePeer)]).2.2 (str "10.0.0.3:80")
     (by decide)⟩

/-- C6 (amended). After one timeout pass in which the clock reads `now` when
the record of the key is examined, with the threshold `5 * pingInterval` of
five seconds: a record with `now - lastSeen` above the threshold is absent; a
record with `now - lastSeen` at or below the threshold, the boundary
included, is present and unchanged; a key without a record has none
afterwards. -/
theorem timeoutSweep_threshold (clock : GoString → Time) (peers : PeerMap) (k : GoString) :
    5 * pingInterval = 5000000000 ∧
    (∀ p, PeerMap.get peers k = some p → 5 * pingInterval < clock k - p.lastSeen →
      PeerMap.get (timeoutSweep clock peers) k = none) ∧
    (∀ p, PeerMap.get peers k = some p → clock k - p.lastSeen ≤ 5 * pingInterval →
      PeerMap.get (timeoutSweep clock peers) k = some p) ∧
    (PeerMap.get peers k = none → PeerMap.get (timeoutSweep clock peers) k = none) := by
  have hc : 5 * pingInterval = 5000000000 := by decide
  refine ⟨hc, ?_, ?_, ?_⟩
  · intro p hp hlt
    have hb : Time.Before (Time.Add p.lastSeen (5 * pingInterval)) (clock k) = true := by
      rw [before_add_iff, hc]; rw [hc] at hlt; linarith
    rw [get_timeoutSweep, hp]
    simp [hb]
  · intro p hp hle
    have hb : ¬ Time.Before (Time.Add p.lastSeen (5 * pingInterval)) (clock k) = true := by
      rw [before_add_iff, hc]; rw [hc] at hle; linarith
    rw [get_timeoutSweep, hp]
    simp [hb]
  · intro hn
    rw [get_timeoutSweep, hn]

/-- C6, for a record last seen at time 0: gone one nanosecond after five
seconds, still there at exactly five seconds. -/
theorem timeoutSweep_threshold_witness :
    PeerMap.get (timeoutSweep (fun _ => 5000000001) [(sampleKey, samplePeer)]) sampleKey
      = none ∧
    PeerMap.get (timeoutSweep (fun _ => 5000000000) [(sampleKey, samplePeer)]) sampleKey
      = some samplePeer :=
  ⟨(timeoutSweep_threshold (fun _ => 5000000001) [(sampleKey, samplePeer)] sampleKey).2.1
     samplePeer (by decide) (by decide),
   (timeoutSweep_threshold (fun _ => 5000000000) [(sampleKey, samplePeer)] sampleKey).2.2.1
     samplePeer (by decide) (by decide)⟩

/-- C6, the claim as stated fails at the boundary: a record whose age is
exactly five times the ping interval is still in the registry after the
pass. -/
theorem timeoutSweep_keeps_boundary :
    PeerMap.get [(sampleKey, samplePeer)] sampleKey = some samplePeer ∧
    (5000000000 : Time) - samplePeer.lastSeen ≥ 5 * pingInterval ∧
    PeerMap.get (timeoutSweep (fun _ => 5000000000) [(sampleKey, samplePeer)]) sampleKey
      = some samplePeer ∧
    PeerMap.get (timeoutSweep (fun _ => 5000000000) [(sampleKey, samplePeer)]) sampleKey
      ≠ none := by
  decide

/-- C7. When `updatePeerName` gets a response whose status is not 200, the
record's name afterwards is its bare address, whatever name it held, and its
address and last-seen time are unchanged. -/
theorem updatePeerName_resets_name (p : peer) (StatusCode : Nat) (body : Body)
    (h : StatusCode ≠ StatusOK) :
    (updatePeerName (GetResponse.resp StatusCode body) p).Name = p.ip ∧
    (updatePeerName (GetResponse.resp StatusCode body) p).ip = p.ip ∧
    (updatePeerName (GetResponse.resp StatusCode body) p).lastSeen = p.lastSeen := by
  simp [updatePeerName, h]

/-- C7, for a record with the resolved name `carol` and a 404 response. -/
theorem updatePeerName_resets_name_witness :
    404 ≠ StatusOK ∧ samplePeer.Name = str "carol" ∧
    (updatePeerName (GetResponse.resp 404 ⟨str "404 Not Found\n", none⟩) samplePeer).Name
      = str "10.0.0.2" :=
  ⟨by decide, by decide,
   (updatePeerName_resets_name samplePeer 404 ⟨str "404 Not Found\n", none⟩ (by decide)).1⟩

/-- C8. The handler stamps a record with the clock reading of the run that
processes the announcement, and the readings of successive runs never
decrease. After the announcements of one key have been processed, with the
readings `ts ++ [t]`, the record's last-seen time is the maximum of the
readings: it is one of them and none is greater. Processing never makes the
last-seen time smaller than it was: what the record holds after any earlier
part of the sequence is at most what it holds at the end, and one
announcement processed at a reading not before the record's last-seen time
leaves it at least as large. -/
theorem notifyAll_lastSeen (d : Discovered) (ts : List Time) (t : Time) (peers : PeerMap)
    (hclock : clockReadings (ts ++ [t])) :
    (∃ q, PeerMap.get (notifyAll d (ts ++ [t]) peers) (d.Address ++ str ":" ++ d.Payload)
        = some q ∧ q.lastSeen = t ∧
      q.lastSeen ∈ ts ++ [t] ∧ (∀ x ∈ ts ++ [t], x ≤ q.lastSeen) ∧
      (∀ (pre suf : List Time) (p : peer), ts ++ [t] = pre ++ suf → pre ≠ [] →
        PeerMap.get (notifyAll d pre peers) (d.Address ++ str ":" ++ d.Payload) = some p →
        p.lastSeen ≤ q.lastSeen)) ∧
    (∀ p, PeerMap.get peers (d.Address ++ str ":" ++ d.Payload) = some p → p.lastSeen ≤ t →
      ∃ q, PeerMap.get (Notify t d peers).1 (d.Address ++ str ":" ++ d.Payload) = some q
        ∧ p.lastSeen ≤ q.lastSeen) := by
  constructor
  · obtain ⟨q, hq, hl⟩ := get_notifyAll_snoc d ts t peers
    have hmax : ∀ x ∈ ts ++ [t], x ≤ q.lastSeen := by
      intro x hx
      rw [hl]
      exact le_last_of_pairwise ts t hclock x hx
    refine ⟨q, hq, hl, ?_, hmax, ?_⟩
    · rw [hl]; simp
    · intro pre suf p hsplit hne hp
      obtain ⟨pre0, u, hpre⟩ : ∃ pre0 u, pre = pre0 ++ [u] :=
        ⟨pre.dropLast, pre.getLast hne, (List.dropLast_append_getLast hne).symm⟩
      obtain ⟨p1, hp1, hu⟩ := get_notifyAll_snoc d pre0 u peers
      rw [hpre, hp1] at hp
      have hpp : p1 = p := by simpa using hp
      rw [← hpp, hu]
      apply hmax
      rw [hsplit, hpre]
      simp
  · intro p hp hle
    refine ⟨{ ip := p.ip, Name := p.Name, lastSeen := t }, ?_, hle⟩
    rw [get_Notify_key, hp]

/-- C8, for announcements processed at the readings 3, 5 and 10: the record
holds 10, and after the first two it held 5. -/
theorem notifyAll_lastSeen_witness :
    clockReadings [3, 5, 10] ∧
    (PeerMap.get (notifyAll sampleSender [3, 5, 10] []) sampleKey).map peer.lastSeen
      = some 10 ∧
    (PeerMap.get (notifyAll sampleSender [3, 5] []) sampleKey).map peer.lastSeen
      = some 5 :=
  ⟨by decide,
   (notifyAll_lastSeen sampleSender [3, 5] 10 [] (by decide)).1.elim fun _ hp =>
     (congrArg (Option.map peer.lastSeen) hp.1).trans (congrArg some hp.2.1),
   by decide⟩

end Lannet
